import Mathlib

/-!
Verification of the collaborative-canvas repository's action history,
undo/redo protocol and client snapshot cache.

Server definitions are translated from `src/server/drawing-state.ts` and
`src/server/server.ts`; client definitions from the final client iteration
(`src/unnamed/part_001`, together with `src/client/websocket.ts` and the
rendering module `src/unnamed/part_004`); persistence definitions from the
persistence-enabled variant `src/unnamed/part_008`.

Coordinates are modelled as integers, strings as Lean `String`, JS arrays
as `List` (push = append at the tail, pop = remove the tail), and JS `Map`
as an association list whose lookup returns the most recently set binding.
The canvas raster is modelled as the sequence of primitive render calls
(`performDraw` / `performDrawRect`) applied since the last clear; snapshot
(`getImageData`) and restore (`putImageData`) copy that value.
-/

namespace Canvas

/-- The tool tag carried by a draw event (`src/client/main.ts`, `types.ts`). -/
inductive Tool where
  | brush
  | eraser
  | rectangle
deriving DecidableEq, Repr

/-- One incremental drawing segment (`DrawEventData` in
`src/server/drawing-state.ts` / client `types.ts`; the `tool` field is
optional and only present in the client protocol). -/
structure DrawEventData where
  fromX : Int
  fromY : Int
  toX : Int
  toY : Int
  color : String
  lineWidth : Int
  tool : Option Tool := none
deriving DecidableEq, Repr

/-- One complete user operation (`DrawAction` in `src/server/drawing-state.ts`). -/
structure DrawAction where
  id : String
  events : List DrawEventData
deriving DecidableEq, Repr

/-- Lookup in an association list modelling a JS `Map`: the most recently
set binding for a key wins. -/
def lookupKey {β : Type} (k : String) : List (String × β) → Option β
  | [] => none
  | (k', v) :: rest => if k' = k then some v else lookupKey k rest

/-- `Map.set`: the new binding shadows any earlier binding of the key. -/
def mapSet {β : Type} (k : String) (v : β) (m : List (String × β)) : List (String × β) :=
  (k, v) :: m

/-- `Map.delete`: removes every binding of the key. -/
def mapDelete {β : Type} (k : String) (m : List (String × β)) : List (String × β) :=
  m.filter (fun p => p.1 ≠ k)

/-- Per-room server state (`RoomState` in `src/server/drawing-state.ts`). -/
structure RoomState where
  actionHistory : List DrawAction
  redoStack : List DrawAction
  activeActions : List (String × DrawAction)
deriving DecidableEq, Repr

/-- The blank room state created by `getRoomState` on first reference. -/
def blankRoom : RoomState := ⟨[], [], []⟩

/-- The action identifier built in `startUserAction`:
`` `${socketId}-${Date.now()}` ``. -/
def mkActionId (socketId : String) (now : Nat) : String :=
  socketId ++ "-" ++ toString now

/-- `startUserAction` (`src/server/drawing-state.ts:50`): creates a new
active action whose id is the socket id and the current millisecond
timestamp joined by `-`, holding just the start event. -/
def startUserAction (socketId : String) (now : Nat) (startEvent : DrawEventData)
    (s : RoomState) : RoomState :=
  let newAction : DrawAction := ⟨mkActionId socketId now, [startEvent]⟩
  { s with activeActions := mapSet socketId newAction (mapDelete socketId s.activeActions) }

/-- `stopUserAction` (`src/server/drawing-state.ts:64`): moves a user's
active action into the permanent history and clears the redo stack;
returns the committed action, or `none` if no action was active. -/
def stopUserAction (socketId : String) (s : RoomState) :
    Option DrawAction × RoomState :=
  match lookupKey socketId s.activeActions with
  | some action =>
      (some action,
       { actionHistory := s.actionHistory ++ [action]
         redoStack := []
         activeActions := mapDelete socketId s.activeActions })
  | none => (none, s)

/-- `addUserEvent` (`src/server/drawing-state.ts:79`): appends a segment to
the user's active action, if one exists; otherwise the state is unchanged. -/
def addUserEvent (socketId : String) (data : DrawEventData) (s : RoomState) : RoomState :=
  match lookupKey socketId s.activeActions with
  | some _ =>
      { s with activeActions :=
          s.activeActions.map (fun p =>
            if p.1 = socketId then (p.1, ⟨p.2.id, p.2.events ++ [data]⟩) else p) }
  | none => s

/-- `performUndo` (`src/server/drawing-state.ts:91`): pops the last action
from the history onto the redo stack. -/
def performUndo (s : RoomState) : Option DrawAction × RoomState :=
  match s.actionHistory.getLast? with
  | some actionToUndo =>
      (some actionToUndo,
       { s with actionHistory := s.actionHistory.dropLast
                redoStack := s.redoStack ++ [actionToUndo] })
  | none => (none, s)

/-- `performRedo` (`src/server/drawing-state.ts:105`): pops the last undone
action from the redo stack back onto the history. -/
def performRedo (s : RoomState) : Option DrawAction × RoomState :=
  match s.redoStack.getLast? with
  | some actionToRedo =>
      (some actionToRedo,
       { s with actionHistory := s.actionHistory ++ [actionToRedo]
                redoStack := s.redoStack.dropLast })
  | none => (none, s)

/-- Scope of a server broadcast within a room (`io.to(room)` versus
`socket.broadcast.to(room)` in `src/server/server.ts`). -/
inductive Scope where
  | allInRoom
  | othersInRoom
deriving DecidableEq, Repr

/-- Messages the server sends to clients of a room (`src/server/server.ts`,
`src/client/websocket.ts`). -/
inductive ServerMsg where
  | drawEvent (e : DrawEventData)
  | actionCommitted (a : DrawAction)
  | performUndoMsg (actionId : String)
  | performRedoMsg (a : DrawAction)
  | performClear
  | globalRedraw (history : List DrawAction)
deriving DecidableEq, Repr

/-- Handler for `start-drawing` (`src/server/server.ts:112`). -/
def onStartDrawing (socketId : String) (now : Nat) (e : DrawEventData) (s : RoomState) :
    RoomState × List (Scope × ServerMsg) :=
  (startUserAction socketId now e s, [(Scope.othersInRoom, ServerMsg.drawEvent e)])

/-- Handler for `stop-drawing` (`src/server/server.ts:118`): commits the
active action and, only if one resulted, broadcasts `action-committed` to
everyone in the room including the sender. -/
def onStopDrawing (socketId : String) (s : RoomState) :
    RoomState × List (Scope × ServerMsg) :=
  match stopUserAction socketId s with
  | (some committedAction, s') =>
      (s', [(Scope.allInRoom, ServerMsg.actionCommitted committedAction)])
  | (none, s') => (s', [])

/-- Handler for `draw-event` (`src/server/server.ts:127`). -/
def onDrawEvent (socketId : String) (data : DrawEventData) (s : RoomState) :
    RoomState × List (Scope × ServerMsg) :=
  (addUserEvent socketId data s, [(Scope.othersInRoom, ServerMsg.drawEvent data)])

/-- Handler for `undo` (`src/server/server.ts:133`): broadcasts the undone
action's id to everyone in the room, only when an action was undone. -/
def onUndo (s : RoomState) : RoomState × List (Scope × ServerMsg) :=
  match performUndo s with
  | (some undoneAction, s') =>
      (s', [(Scope.allInRoom, ServerMsg.performUndoMsg undoneAction.id)])
  | (none, s') => (s', [])

/-- Handler for `redo` (`src/server/server.ts:141`): broadcasts the full
redone action to everyone in the room, only when an action was redone. -/
def onRedo (s : RoomState) : RoomState × List (Scope × ServerMsg) :=
  match performRedo s with
  | (some redoneAction, s') =>
      (s', [(Scope.allInRoom, ServerMsg.performRedoMsg redoneAction)])
  | (none, s') => (s', [])

/-- Modelled from the spec: `commitShape` of the Room History Authority.
The final server's `draw-shape` handling is missing from `src/` (only the
client emitter `emitDrawShape` in `src/client/websocket.ts` and the spec /
`ARCHITECTURE.md` describe it): a single-event shape action submitted whole
is appended directly to `actionHistory`, the redo stack is cleared, and the
action is returned unchanged. -/
def commitShape (a : DrawAction) (s : RoomState) : RoomState :=
  { actionHistory := s.actionHistory ++ [a]
    redoStack := []
    activeActions := s.activeActions }

/-- Modelled from the spec: the server's `draw-shape` message handler
(missing from `src/`, described in the spec's Protocol Router rules):
construct a single-event `DrawAction` from the submitted event, commit it
via `commitShape`, and broadcast `action-committed` to everyone in the
room including the sender. -/
def onDrawShape (socketId : String) (now : Nat) (e : DrawEventData) (s : RoomState) :
    RoomState × List (Scope × ServerMsg) :=
  let a : DrawAction := ⟨mkActionId socketId now, [e]⟩
  (commitShape a s, [(Scope.allInRoom, ServerMsg.actionCommitted a)])

/-- Modelled from the spec: the server's `clear-canvas` message handler
(missing from `src/`, described in the spec's Protocol Router rules):
clears `actionHistory` and `redoStack` for the room and broadcasts a
`perform-clear` notification to everyone in the room. -/
def onClearCanvas (s : RoomState) : RoomState × List (Scope × ServerMsg) :=
  ({ actionHistory := []
     redoStack := []
     activeActions := s.activeActions },
   [(Scope.allInRoom, ServerMsg.performClear)])

/-- One primitive render call on the drawing canvas: `performDraw` strokes
a line segment, `performDrawRect` strokes a rectangle outline
(`src/unnamed/part_004`). -/
inductive RenderOp where
  | brush (e : DrawEventData)
  | rect (e : DrawEventData)
deriving DecidableEq, Repr

/-- The canvas raster, modelled as the sequence of primitive render calls
applied since the last `clearRect`; the blank canvas is `[]`. -/
abbrev Raster := List RenderOp

/-- The sentinel cache key for the blank canvas
(`INITIAL_STATE_KEY = 'initial'` in the client). -/
def initialKey : String := "initial"

/-- Client state (`src/unnamed/part_001`): the local mirror of the room's
action history, the snapshot cache keyed by action identity, and the
current canvas raster. -/
structure ClientState where
  localActionHistory : List DrawAction
  stateCache : List (String × Raster)
  canvas : Raster
deriving DecidableEq, Repr

/-- The client's shape test
`action.events.length === 1 && action.events[0].tool === 'rectangle'`. -/
def isShapeAction (a : DrawAction) : Bool :=
  match a.events with
  | [e] => e.tool = some Tool.rectangle
  | _ => false

/-- The client's sender extraction `action.id.split('-')[0]`
(`src/unnamed/part_001`, `addCommittedAction`): the first element of the
split is the segment of the id before its first `-` (the whole id when it
contains none). -/
def senderIdOf (id : String) : String :=
  String.mk (id.data.takeWhile (fun c => c ≠ '-'))

/-- How the client renders one committed action during a replay
(`buildCacheAndRedraw` / `redoAction` in `src/unnamed/part_001`): a
single-event rectangle action is drawn with `performDrawRect`, anything
else event-by-event with `performDraw`. -/
def renderAction (a : DrawAction) : Raster :=
  if isShapeAction a then
    match a.events with
    | e :: _ => [RenderOp.rect e]
    | [] => []
  else
    a.events.map RenderOp.brush

/-- The loop body of `buildCacheAndRedraw`: replay each action in order,
snapshotting the canvas after each one into the cache. -/
def buildCacheLoop (canvas : Raster) (cache : List (String × Raster)) :
    List DrawAction → Raster × List (String × Raster)
  | [] => (canvas, cache)
  | a :: rest =>
      let canvas' := canvas ++ renderAction a
      buildCacheLoop canvas' (mapSet a.id canvas' cache) rest

/-- `buildCacheAndRedraw` (`src/unnamed/part_001:72`): clear the canvas and
the cache, store the blank snapshot under the sentinel key, then replay the
whole history, caching a snapshot after every action. -/
def buildCacheAndRedraw (hist : List DrawAction) : ClientState :=
  let p := buildCacheLoop [] (mapSet initialKey [] []) hist
  ⟨hist, p.2, p.1⟩

/-- `setHistory` (`src/unnamed/part_001:100`): on `global-redraw`, replace
the local history and rebuild everything. -/
def setHistory (hist : List DrawAction) (_c : ClientState) : ClientState :=
  buildCacheAndRedraw hist

/-- `addCommittedAction` (`src/unnamed/part_001:108`): on
`action-committed`, render the action first when it is a single-event
rectangle action whose id's sender segment differs from the local socket
id; then append it to the local history and snapshot the canvas under the
action's id. -/
def addCommittedAction (selfId : String) (a : DrawAction) (c : ClientState) : ClientState :=
  let canvas' :=
    if isShapeAction a ∧ senderIdOf a.id ≠ selfId then
      match a.events with
      | e :: _ => c.canvas ++ [RenderOp.rect e]
      | [] => c.canvas
    else c.canvas
  ⟨c.localActionHistory ++ [a], mapSet a.id canvas' c.stateCache, canvas'⟩

/-- `undoActionById` (`src/unnamed/part_001:125`): on `perform-undo`,
remove the action with the given id from the local history, then restore
the snapshot of the new last action (or of the sentinel); on a cache miss,
fall back to a full rebuild. -/
def undoActionById (actionId : String) (c : ClientState) : ClientState :=
  let hist' := c.localActionHistory.filter (fun a => a.id ≠ actionId)
  let lastActionId :=
    match hist'.getLast? with
    | some a => a.id
    | none => initialKey
  match lookupKey lastActionId c.stateCache with
  | some stateToRestore => ⟨hist', c.stateCache, stateToRestore⟩
  | none => buildCacheAndRedraw hist'

/-- `redoAction` (`src/unnamed/part_001:149`): on `perform-redo`, append
the action to the local history, restore the snapshot of the action before
it (or the sentinel), render only the redone action on top, and snapshot
the result under its id; on a cache miss, fall back to a full rebuild. -/
def redoAction (a : DrawAction) (c : ClientState) : ClientState :=
  let hist' := c.localActionHistory ++ [a]
  let previousActionId :=
    match c.localActionHistory.getLast? with
    | some p => p.id
    | none => initialKey
  match lookupKey previousActionId c.stateCache with
  | some prevState =>
      let canvas' := prevState ++ renderAction a
      ⟨hist', mapSet a.id canvas' c.stateCache, canvas'⟩
  | none => buildCacheAndRedraw hist'

/-- `clearCanvas` on `perform-clear` (spec §4.3): clear the local history
and the cache, clear the canvas, re-establish the sentinel snapshot.  This
coincides with rebuilding from an empty history. -/
def clearCanvasClient (_c : ClientState) : ClientState :=
  buildCacheAndRedraw []

/-- Character sanitation of `getRoomKey` (`src/unnamed/part_008:38`):
`roomName.replace(/[^a-z0-9_-]/gi, '_')` keeps ASCII letters, digits,
underscore and hyphen, and replaces every other character with `_`. -/
def sanitizeChar (c : Char) : Char :=
  if c.isAlphanum ∨ c = '_' ∨ c = '-' then c else '_'

/-- `getRoomKey` (`src/unnamed/part_008:36`): the persistence key for a
room is `room:` followed by the character-wise sanitized room name. -/
def getRoomKey (roomName : String) : String :=
  "room:" ++ String.mk (roomName.data.map sanitizeChar)

/-- The per-room persisted document: exactly `{actionHistory, redoStack}`
(`src/unnamed/part_008:52`). -/
structure SavedDoc where
  actionHistory : List DrawAction
  redoStack : List DrawAction
deriving DecidableEq, Repr

/-- The key-value persistence store, modelled as an association list where
`kv.set` shadows earlier bindings of the same key. -/
abbrev KVStore := List (String × SavedDoc)

/-- `saveRoomState` (`src/unnamed/part_008:49`): writes the room's history
and redo stack under the room's persistence key. -/
def saveRoomState (roomName : String) (s : RoomState) (kv : KVStore) : KVStore :=
  mapSet (getRoomKey roomName) ⟨s.actionHistory, s.redoStack⟩ kv

/-! ## Theorems about the server history -/

/-- C1: after a commit — `stopUserAction` returning a `DrawAction`, or a
shape commit via `commitShape` — the room's redo stack is empty, so an
immediately following `performRedo` returns absent even if it would have
succeeded before, and the history gains exactly the committed action at
its tail. -/
theorem commit_clears_redo :
    (∀ (s : RoomState) (socketId : String) (a : DrawAction),
        (stopUserAction socketId s).1 = some a →
        (stopUserAction socketId s).2.redoStack = [] ∧
        (performRedo (stopUserAction socketId s).2).1 = none ∧
        (stopUserAction socketId s).2.actionHistory = s.actionHistory ++ [a]) ∧
    (∀ (s : RoomState) (a : DrawAction),
        (commitShape a s).redoStack = [] ∧
        (performRedo (commitShape a s)).1 = none ∧
        (commitShape a s).actionHistory = s.actionHistory ++ [a]) := by
  constructor
  · intro s socketId a h
    cases hl : lookupKey socketId s.activeActions with
    | none => simp [stopUserAction, hl] at h
    | some act =>
        have hs : stopUserAction socketId s =
            (some act,
             ⟨s.actionHistory ++ [act], [], mapDelete socketId s.activeActions⟩) := by
          simp [stopUserAction, hl]
        rw [hs] at h ⊢
        obtain rfl : act = a := by simpa using h
        refine ⟨rfl, ?_, rfl⟩
        simp [performRedo]
  · intro s a
    refine ⟨rfl, ?_, rfl⟩
    simp [performRedo, commitShape]

/-- Witness for C1 at a concrete room with an active action and a
non-empty redo stack. -/
theorem commit_clears_redo_witness :
    (stopUserAction "sock"
        ⟨[], [⟨"old-1", []⟩], [("sock", ⟨"sock-3", []⟩)]⟩).1 = some ⟨"sock-3", []⟩ ∧
    (stopUserAction "sock"
        ⟨[], [⟨"old-1", []⟩], [("sock", ⟨"sock-3", []⟩)]⟩).2.redoStack = [] ∧
    (performRedo (stopUserAction "sock"
        ⟨[], [⟨"old-1", []⟩], [("sock", ⟨"sock-3", []⟩)]⟩).2).1 = none := by
  have h := commit_clears_redo.1
    ⟨[], [⟨"old-1", []⟩], [("sock", ⟨"sock-3", []⟩)]⟩ "sock" ⟨"sock-3", []⟩ (by decide)
  exact ⟨by decide, h.1, h.2.1⟩

/-- C2: from history `[A, B]` with an empty redo stack, `performUndo`
returns `B` leaving history `[A]` and redo stack `[B]`; a following
`performRedo` returns the identical action object `B` and restores
history `[A, B]` and an empty redo stack. -/
theorem undo_redo_inverse (A B : DrawAction) (m : List (String × DrawAction)) :
    performUndo ⟨[A, B], [], m⟩ = (some B, ⟨[A], [B], m⟩) ∧
    performRedo ⟨[A], [B], m⟩ = (some B, ⟨[A, B], [], m⟩) :=
  ⟨rfl, rfl⟩

/-- C3: the server's `clear-canvas` handling empties both the history and
the redo stack (so a following redo returns absent even if an action had
been undone before the clear) and broadcasts `perform-clear` to everyone
in the room. -/
theorem clear_canvas_wipes_history (s : RoomState) :
    (onClearCanvas s).1.actionHistory = [] ∧
    (onClearCanvas s).1.redoStack = [] ∧
    performRedo (onClearCanvas s).1 = (none, (onClearCanvas s).1) ∧
    (onClearCanvas s).2 = [(Scope.allInRoom, ServerMsg.performClear)] :=
  ⟨rfl, rfl, rfl, rfl⟩

/-- C4: a `draw-shape` message carrying a single event with from=(10,10)
and to=(50,40) commits a `DrawAction` holding exactly that one event
(whose bounds are those coordinates), clears the redo stack, and
broadcasts `action-committed` to everyone in the room including the
sender. -/
theorem draw_shape_commits_single_event (s : RoomState) (socketId : String) (now : Nat)
    (color : String) (lineWidth : Int) (tool : Option Tool) :
    onDrawShape socketId now ⟨10, 10, 50, 40, color, lineWidth, tool⟩ s =
      ({ actionHistory :=
           s.actionHistory ++ [⟨mkActionId socketId now, [⟨10, 10, 50, 40, color, lineWidth, tool⟩]⟩]
         redoStack := []
         activeActions := s.activeActions },
       [(Scope.allInRoom,
         ServerMsg.actionCommitted
           ⟨mkActionId socketId now, [⟨10, 10, 50, 40, color, lineWidth, tool⟩]⟩)]) :=
  rfl

/-- C7: undo on an empty history and redo on an empty redo stack are
no-ops: the operation returns absent, the room state is unchanged, and
the server broadcasts nothing. -/
theorem undo_redo_empty_noop (s : RoomState) :
    (s.actionHistory = [] → performUndo s = (none, s) ∧ onUndo s = (s, [])) ∧
    (s.redoStack = [] → performRedo s = (none, s) ∧ onRedo s = (s, [])) := by
  constructor
  · intro h
    have hu : performUndo s = (none, s) := by simp [performUndo, h]
    exact ⟨hu, by simp [onUndo, hu]⟩
  · intro h
    have hr : performRedo s = (none, s) := by simp [performRedo, h]
    exact ⟨hr, by simp [onRedo, hr]⟩

/-- Witness for C7 at the blank room. -/
theorem undo_redo_empty_noop_witness :
    (performUndo blankRoom = (none, blankRoom) ∧ onUndo blankRoom = (blankRoom, [])) ∧
    (performRedo blankRoom = (none, blankRoom) ∧ onRedo blankRoom = (blankRoom, [])) :=
  ⟨(undo_redo_empty_noop blankRoom).1 rfl, (undo_redo_empty_noop blankRoom).2 rfl⟩

/-- C8: a `draw-event` or `stop-drawing` from a client with no active
action is silently discarded: `addUserEvent` leaves the room state
untouched, `stopUserAction` returns absent and changes nothing, the
`stop-drawing` handler broadcasts nothing, and the `draw-event` handler
leaves the state untouched and broadcasts no `action-committed`. -/
theorem stray_events_ignored (s : RoomState) (clientId : String) (e : DrawEventData)
    (h : lookupKey clientId s.activeActions = none) :
    addUserEvent clientId e s = s ∧
    stopUserAction clientId s = (none, s) ∧
    onStopDrawing clientId s = (s, []) ∧
    (onDrawEvent clientId e s).1 = s ∧
    ∀ (sc : Scope) (a : DrawAction),
      (sc, ServerMsg.actionCommitted a) ∉ (onDrawEvent clientId e s).2 := by
  have h1 : addUserEvent clientId e s = s := by simp [addUserEvent, h]
  have h2 : stopUserAction clientId s = (none, s) := by simp [stopUserAction, h]
  refine ⟨h1, h2, ?_, by simp [onDrawEvent, h1], ?_⟩
  · simp [onStopDrawing, h2]
  · intro sc a
    simp [onDrawEvent]

/-- Witness for C8: a stray event at the blank room. -/
theorem stray_events_ignored_witness :
    addUserEvent "ghost" ⟨0, 0, 1, 1, "#000000", 2, none⟩ blankRoom = blankRoom ∧
    stopUserAction "ghost" blankRoom = (none, blankRoom) ∧
    onStopDrawing "ghost" blankRoom = (blankRoom, []) := by
  have h := stray_events_ignored blankRoom "ghost" ⟨0, 0, 1, 1, "#000000", 2, none⟩ rfl
  exact ⟨h.1, h.2.1, h.2.2.1⟩

/-- C10: room-name sanitation in `getRoomKey` is lossy — the distinct room
names `"a b"` and `"a_b"` map to the same persistence key, and saving one
room's state overwrites the other's persisted `{actionHistory, redoStack}`
document. -/
theorem room_key_collision_overwrites :
    getRoomKey "a b" = getRoomKey "a_b" ∧
    "a b" ≠ "a_b" ∧
    ∀ (kv : KVStore) (s1 s2 : RoomState),
      lookupKey (getRoomKey "a_b") (saveRoomState "a b" s1 (saveRoomState "a_b" s2 kv)) =
        some ⟨s1.actionHistory, s1.redoStack⟩ := by
  refine ⟨by decide, by decide, ?_⟩
  intro kv s1 s2
  have hk : getRoomKey "a b" = getRoomKey "a_b" := by decide
  simp [saveRoomState, mapSet, lookupKey, hk]

/-! ## Action identifiers -/

/-- Splitting a list at a marker element is unambiguous when neither
prefix contains the marker. -/
theorem append_cons_marker_inj {α : Type} [DecidableEq α] (m : α) :
    ∀ (l1 l2 r1 r2 : List α), m ∉ l1 → m ∉ l2 →
      l1 ++ m :: r1 = l2 ++ m :: r2 → l1 = l2 ∧ r1 = r2 := by
  intro l1
  induction l1 with
  | nil =>
      intro l2 r1 r2 _ h2 heq
      cases l2 with
      | nil => simpa using heq
      | cons b bs =>
          simp only [List.nil_append, List.cons_append, List.cons.injEq] at heq
          exact absurd (heq.1 ▸ List.mem_cons_self b bs) h2
  | cons a as ih =>
      intro l2 r1 r2 h1 h2 heq
      cases l2 with
      | nil =>
          simp only [List.nil_append, List.cons_append, List.cons.injEq] at heq
          exact absurd (heq.1.symm ▸ List.mem_cons_self a as) h1
      | cons b bs =>
          simp only [List.cons_append, List.cons.injEq] at heq
          obtain ⟨rfl, heq⟩ := heq
          have := ih bs r1 r2 (fun hm => h1 (List.mem_cons_of_mem _ hm))
            (fun hm => h2 (List.mem_cons_of_mem _ hm)) heq
          exact ⟨by rw [this.1], this.2⟩

/-- C9 (amended): a committed action's identifier is its session id and
the millisecond timestamp taken when the action started, joined by `-`.
For sessions whose ids contain no `-`, two identifiers coincide exactly
when both the session ids and the timestamps' decimal strings coincide —
so identifiers are not globally unique: one session starting two actions
in the same millisecond reuses the identifier. -/
theorem action_id_characterization (sid1 sid2 : String) (t1 t2 : Nat)
    (h1 : '-' ∉ sid1.data) (h2 : '-' ∉ sid2.data) :
    mkActionId sid1 t1 = mkActionId sid2 t2 ↔
      sid1 = sid2 ∧ toString t1 = toString t2 := by
  constructor
  · intro h
    have hdata : sid1.data ++ '-' :: (toString t1).data =
        sid2.data ++ '-' :: (toString t2).data := by
      have := congrArg String.data h
      simpa [mkActionId, String.data_append] using this
    have := append_cons_marker_inj '-' sid1.data sid2.data
      (toString t1).data (toString t2).data h1 h2 hdata
    exact ⟨String.ext this.1, String.ext this.2⟩
  · rintro ⟨rfl, h⟩
    simp [mkActionId, h]

/-- Witness for C9's amended characterization at concrete dash-free
session ids. -/
theorem action_id_characterization_witness :
    (mkActionId "abc" 5 = mkActionId "abc" 5 ↔
      ("abc" : String) = "abc" ∧ toString (5 : Nat) = toString (5 : Nat)) ∧
    (mkActionId "abc" 5 = mkActionId "xyz" 5 ↔
      ("abc" : String) = "xyz" ∧ toString (5 : Nat) = toString (5 : Nat)) :=
  ⟨action_id_characterization "abc" "abc" 5 5 (by decide) (by decide),
   action_id_characterization "abc" "xyz" 5 5 (by decide) (by decide)⟩

/-- C9 counterexample: one session (socket id `"sock"`) starting and
committing two different actions in the same millisecond (`Date.now()`
returning 7 both times) puts two distinct actions with the *same*
identifier into the history, so identifiers are not globally unique. -/
theorem duplicate_action_ids_counterexample :
    (stopUserAction "sock"
        (startUserAction "sock" 7 ⟨5, 5, 6, 6, "#000000", 2, none⟩
          (stopUserAction "sock"
              (startUserAction "sock" 7 ⟨0, 0, 1, 1, "#000000", 2, none⟩ blankRoom)).2)).2.actionHistory =
      [⟨"sock-7", [⟨0, 0, 1, 1, "#000000", 2, none⟩]⟩,
       ⟨"sock-7", [⟨5, 5, 6, 6, "#000000", 2, none⟩]⟩] ∧
    (⟨"sock-7", [⟨0, 0, 1, 1, "#000000", 2, none⟩]⟩ : DrawAction) ≠
      ⟨"sock-7", [⟨5, 5, 6, 6, "#000000", 2, none⟩]⟩ ∧
    DrawAction.id ⟨"sock-7", [⟨0, 0, 1, 1, "#000000", 2, none⟩]⟩ =
      DrawAction.id ⟨"sock-7", [⟨5, 5, 6, 6, "#000000", 2, none⟩]⟩ := by
  refine ⟨by decide, by decide, rfl⟩

/-! ## Client handling of `action-committed` -/

/-- C6 (amended): on `action-committed` the client renders a single-event
rectangle action exactly when the segment of the action id before its
first `-` differs from the local session id, then snapshots; when that
segment equals the session id, and for every non-shape action, it only
appends and snapshots without rendering.  For session ids without `-`
this coincides with the remote/own distinction the claim describes. -/
theorem committed_action_render (selfId : String) (a : DrawAction) (c : ClientState) :
    (∀ e : DrawEventData, a.events = [e] → e.tool = some Tool.rectangle →
        ((senderIdOf a.id ≠ selfId →
            addCommittedAction selfId a c =
              ⟨c.localActionHistory ++ [a],
               mapSet a.id (c.canvas ++ [RenderOp.rect e]) c.stateCache,
               c.canvas ++ [RenderOp.rect e]⟩) ∧
         (senderIdOf a.id = selfId →
            addCommittedAction selfId a c =
              ⟨c.localActionHistory ++ [a],
               mapSet a.id c.canvas c.stateCache, c.canvas⟩))) ∧
    (isShapeAction a = false →
        addCommittedAction selfId a c =
          ⟨c.localActionHistory ++ [a],
           mapSet a.id c.canvas c.stateCache, c.canvas⟩) := by
  constructor
  · intro e hev htool
    constructor
    · intro hne
      simp [addCommittedAction, isShapeAction, hev, htool, hne]
    · intro heq
      simp [addCommittedAction, isShapeAction, hev, htool, heq]
  · intro hns
    simp [addCommittedAction, hns]

/-- Witness for C6's amended theorem: a remote shape action rendered on
commit, the same action treated as the committer's own, and a non-shape
action, all at concrete inputs. -/
theorem committed_action_render_witness :
    addCommittedAction "me"
        ⟨"you-5", [⟨10, 10, 50, 40, "#f00", 2, some Tool.rectangle⟩]⟩
        (buildCacheAndRedraw []) =
      ⟨[⟨"you-5", [⟨10, 10, 50, 40, "#f00", 2, some Tool.rectangle⟩]⟩],
       mapSet "you-5" [RenderOp.rect ⟨10, 10, 50, 40, "#f00", 2, some Tool.rectangle⟩]
         (mapSet initialKey [] []),
       [RenderOp.rect ⟨10, 10, 50, 40, "#f00", 2, some Tool.rectangle⟩]⟩ ∧
    addCommittedAction "you"
        ⟨"you-5", [⟨10, 10, 50, 40, "#f00", 2, some Tool.rectangle⟩]⟩
        (buildCacheAndRedraw []) =
      ⟨[⟨"you-5", [⟨10, 10, 50, 40, "#f00", 2, some Tool.rectangle⟩]⟩],
       mapSet "you-5" [] (mapSet initialKey [] []), []⟩ ∧
    addCommittedAction "me" ⟨"you-6", []⟩ (buildCacheAndRedraw []) =
      ⟨[⟨"you-6", []⟩], mapSet "you-6" [] (mapSet initialKey [] []), []⟩ := by
  refine ⟨?_, ?_, ?_⟩
  · have h := (committed_action_render "me"
      ⟨"you-5", [⟨10, 10, 50, 40, "#f00", 2, some Tool.rectangle⟩]⟩
      (buildCacheAndRedraw [])).1
      ⟨10, 10, 50, 40, "#f00", 2, some Tool.rectangle⟩ rfl rfl
    exact h.1 (by decide)
  · have h := (committed_action_render "you"
      ⟨"you-5", [⟨10, 10, 50, 40, "#f00", 2, some Tool.rectangle⟩]⟩
      (buildCacheAndRedraw [])).1
      ⟨10, 10, 50, 40, "#f00", 2, some Tool.rectangle⟩ rfl rfl
    exact h.2 (by decide)
  · exact (committed_action_render "me" ⟨"you-6", []⟩ (buildCacheAndRedraw [])).2 rfl

/-- C6 counterexample: a client whose own session id contains `-`
(possible for socket ids) has its *own* single-event shape action
re-rendered on `action-committed`: with session id `"a-b"`, the action id
the server builds is `"a-b-99"`, its segment before the first `-` is
`"a"`, which differs from `"a-b"`, so the rectangle is drawn again even
though the action is the local user's. -/
theorem own_shape_rerendered_counterexample :
    mkActionId "a-b" 99 = "a-b-99" ∧
    senderIdOf "a-b-99" = "a" ∧
    (buildCacheAndRedraw []).canvas = ([] : Raster) ∧
    (addCommittedAction "a-b"
        ⟨mkActionId "a-b" 99, [⟨10, 10, 50, 40, "#f00", 2, some Tool.rectangle⟩]⟩
        (buildCacheAndRedraw [])).canvas =
      [RenderOp.rect ⟨10, 10, 50, 40, "#f00", 2, some Tool.rectangle⟩] := by
  refine ⟨by decide, by decide, by decide, by decide⟩

/-! ## The snapshot-cache invariant -/

/-- The raster obtained by replaying a list of actions onto a blank
canvas, exactly as the client's rebuild loop renders them. -/
def replayAll : List DrawAction → Raster
  | [] => []
  | a :: rest => renderAction a ++ replayAll rest

theorem replayAll_append (h1 h2 : List DrawAction) :
    replayAll (h1 ++ h2) = replayAll h1 ++ replayAll h2 := by
  induction h1 with
  | nil => simp [replayAll]
  | cons a as ih => simp [replayAll, ih]

theorem lookupKey_mapSet_self {β : Type} (k : String) (v : β) (m : List (String × β)) :
    lookupKey k (mapSet k v m) = some v := by
  simp [lookupKey, mapSet]

theorem lookupKey_mapSet_ne {β : Type} (k k' : String) (v : β) (m : List (String × β))
    (h : k' ≠ k) : lookupKey k (mapSet k' v m) = lookupKey k m := by
  simp [lookupKey, mapSet, h]

theorem renderAction_not_shape (a : DrawAction) (h : isShapeAction a = false) :
    renderAction a = a.events.map RenderOp.brush := by
  simp [renderAction, h]

theorem renderAction_shape (a : DrawAction) (e : DrawEventData)
    (hev : a.events = [e]) (ht : e.tool = some Tool.rectangle) :
    renderAction a = [RenderOp.rect e] := by
  simp [renderAction, isShapeAction, hev, ht]

theorem buildCacheLoop_canvas (h : List DrawAction) :
    ∀ (canvas : Raster) (cache : List (String × Raster)),
      (buildCacheLoop canvas cache h).1 = canvas ++ replayAll h := by
  induction h with
  | nil => intro c0 m; simp [buildCacheLoop, replayAll]
  | cons a as ih => intro c0 m; simp [buildCacheLoop, replayAll, ih, List.append_assoc]

theorem buildCacheLoop_lookup_notin (h : List DrawAction) :
    ∀ (canvas : Raster) (cache : List (String × Raster)) (k : String),
      k ∉ h.map DrawAction.id →
      lookupKey k (buildCacheLoop canvas cache h).2 = lookupKey k cache := by
  induction h with
  | nil => intro _ _ _ _; rfl
  | cons a as ih =>
      intro c0 m k hk
      simp only [List.map_cons, List.mem_cons] at hk
      push_neg at hk
      simp only [buildCacheLoop]
      rw [ih _ _ _ hk.2, lookupKey_mapSet_ne _ _ _ _ (fun he => hk.1 he.symm)]

theorem buildCacheLoop_lookup_mem (h : List DrawAction) :
    ∀ (canvas : Raster) (cache : List (String × Raster)) (i : Nat) (a : DrawAction),
      (h.map DrawAction.id).Nodup →
      h.get? i = some a →
      lookupKey a.id (buildCacheLoop canvas cache h).2 =
        some (canvas ++ replayAll (h.take (i + 1))) := by
  induction h with
  | nil => intro _ _ i a _ hg; simp at hg
  | cons b bs ih =>
      intro c0 m i a hnd hg
      simp only [List.map_cons, List.nodup_cons] at hnd
      cases i with
      | zero =>
          obtain rfl : b = a := by simpa using hg
          simp only [buildCacheLoop]
          rw [buildCacheLoop_lookup_notin bs _ _ _ hnd.1, lookupKey_mapSet_self]
          simp [replayAll]
      | succ j =>
          simp only [buildCacheLoop]
          rw [ih (c0 ++ renderAction b) _ j a hnd.2 (by simpa using hg)]
          simp [replayAll, List.append_assoc]

/-- The invariant the client maintains: the sentinel maps to the blank
snapshot, action ids are distinct and distinct from the sentinel, the
canvas equals the replay of the whole local history, and each action's
cached snapshot equals the replay of the history up to and including it. -/
def GoodClient (c : ClientState) : Prop :=
  lookupKey initialKey c.stateCache = some [] ∧
  (∀ a ∈ c.localActionHistory, a.id ≠ initialKey) ∧
  (c.localActionHistory.map DrawAction.id).Nodup ∧
  c.canvas = replayAll c.localActionHistory ∧
  ∀ (i : Nat) (a : DrawAction), c.localActionHistory.get? i = some a →
    lookupKey a.id c.stateCache = some (replayAll (c.localActionHistory.take (i + 1)))

theorem good_build (h : List DrawAction)
    (hnd : (h.map DrawAction.id).Nodup)
    (hinit : ∀ a ∈ h, a.id ≠ initialKey) :
    GoodClient (buildCacheAndRedraw h) := by
  have hni : initialKey ∉ h.map DrawAction.id := by
    intro hm
    obtain ⟨a, ha, hida⟩ := List.mem_map.mp hm
    exact hinit a ha hida
  refine ⟨?_, hinit, hnd, ?_, ?_⟩
  · simp only [buildCacheAndRedraw]
    rw [buildCacheLoop_lookup_notin _ _ _ _ hni, lookupKey_mapSet_self]
  · simp only [buildCacheAndRedraw]
    rw [buildCacheLoop_canvas]
    simp
  · intro i a hg
    simp only [buildCacheAndRedraw]
    rw [buildCacheLoop_lookup_mem h _ _ i a hnd hg]
    simp

/-- Appending a freshly-identified action, with the canvas already holding
its rendering, preserves the client invariant. -/
theorem good_commit_core (c : ClientState) (a : DrawAction)
    (hg : GoodClient c)
    (hfresh : a.id ∉ c.localActionHistory.map DrawAction.id)
    (hinit : a.id ≠ initialKey) :
    GoodClient
      ⟨c.localActionHistory ++ [a],
       mapSet a.id (replayAll c.localActionHistory ++ renderAction a) c.stateCache,
       replayAll c.localActionHistory ++ renderAction a⟩ := by
  obtain ⟨g1, g2, g3, _g4, g5⟩ := hg
  refine ⟨?_, ?_, ?_, ?_, ?_⟩
  · rw [lookupKey_mapSet_ne _ _ _ _ hinit]; exact g1
  · intro b hb
    rcases List.mem_append.mp hb with hb | hb
    · exact g2 b hb
    · obtain rfl : b = a := by simpa using hb
      exact hinit
  · rw [List.map_append]
    refine List.nodup_append.mpr ⟨g3, by simp, ?_⟩
    intro x hx hx'
    obtain rfl : x = a.id := by simpa using hx'
    exact hfresh hx
  · simp [replayAll_append, replayAll]
  · intro i b hb
    have hlen : i < c.localActionHistory.length + 1 := by
      obtain ⟨hbound, _⟩ := List.get?_eq_some.mp hb
      simpa using hbound
    rcases Nat.lt_succ_iff_lt_or_eq.mp hlen with hi | hi
    · have hb' : c.localActionHistory.get? i = some b := by
        rw [← List.get?_append hi]; exact hb
      have hmem : b ∈ c.localActionHistory := List.get?_mem hb'
      have hne : a.id ≠ b.id := by
        intro he
        exact hfresh (he ▸ List.mem_map_of_mem DrawAction.id hmem)
      rw [lookupKey_mapSet_ne _ _ _ _ hne,
        List.take_append_of_le_length (by omega), g5 i b hb']
    · subst hi
      obtain rfl : a = b := by
        have := List.get?_concat_length c.localActionHistory a
        rw [this] at hb
        simpa using hb
      rw [lookupKey_mapSet_self]
      rw [show c.localActionHistory.length + 1 =
            (c.localActionHistory ++ [a]).length by simp,
        List.take_length, replayAll_append]
      simp [replayAll]

/-- Under the invariant, the snapshot looked up for the current history
tail (or the sentinel when the history is empty) is the replay of the
whole history. -/
theorem good_lookup_last (c : ClientState) (hg : GoodClient c) :
    lookupKey
      (match c.localActionHistory.getLast? with
       | some p => p.id
       | none => initialKey) c.stateCache =
      some (replayAll c.localActionHistory) := by
  obtain ⟨g1, _g2, _g3, _g4, g5⟩ := hg
  cases hl : c.localActionHistory.getLast? with
  | none =>
      have : c.localActionHistory = [] := by
        cases h : c.localActionHistory with
        | nil => rfl
        | cons x xs => rw [h] at hl; simp at hl
      rw [this]
      simpa [replayAll] using g1
  | some p =>
      have hne : c.localActionHistory ≠ [] := by
        intro he; rw [he] at hl; simp at hl
      have hlen : 0 < c.localActionHistory.length := List.length_pos.mpr hne
      have hget : c.localActionHistory.get? (c.localActionHistory.length - 1) = some p := by
        rw [← List.getLast?_eq_get?]; exact hl
      have := g5 _ p hget
      rw [this]
      congr 1
      rw [show c.localActionHistory.length - 1 + 1 = c.localActionHistory.length by omega,
        List.take_length]

/-- An undo notification for the current tail preserves the client
invariant. -/
theorem good_undo (c : ClientState) (a : DrawAction)
    (hg : GoodClient c) (hl : c.localActionHistory.getLast? = some a) :
    GoodClient (undoActionById a.id c) := by
  obtain ⟨g1, g2, g3, g4, g5⟩ := hg
  have hne : c.localActionHistory ≠ [] := by intro he; rw [he] at hl; simp at hl
  have hlast : c.localActionHistory.getLast hne = a := by
    have := List.getLast?_eq_getLast c.localActionHistory hne
    rw [hl] at this
    exact (Option.some_inj.mp this).symm
  have hsplit : c.localActionHistory = c.localActionHistory.dropLast ++ [a] := by
    conv_lhs => rw [← List.dropLast_append_getLast hne]
    rw [hlast]
  set h0 := c.localActionHistory.dropLast with hh0
  have hnd' : (h0.map DrawAction.id ++ [a].map DrawAction.id).Nodup := by
    rw [← List.map_append, ← hsplit]; exact g3
  have hnotin : a.id ∉ h0.map DrawAction.id := by
    have hdisj := (List.nodup_append.mp hnd').2.2
    intro hm
    exact hdisj hm (by simp)
  have hfilter : c.localActionHistory.filter (fun b => b.id ≠ a.id) = h0 := by
    rw [hsplit, List.filter_append]
    have h1 : h0.filter (fun b => b.id ≠ a.id) = h0 := by
      refine List.filter_eq_self.mpr ?_
      intro b hb
      have : b.id ≠ a.id := by
        intro he
        exact hnotin (he ▸ List.mem_map_of_mem DrawAction.id hb)
      simpa using this
    have h2 : [a].filter (fun b => b.id ≠ a.id) = [] := by simp
    rw [h1, h2, List.append_nil]
  have hlook : lookupKey
      (match h0.getLast? with
       | some p => p.id
       | none => initialKey) c.stateCache = some (replayAll h0) := by
    cases hg0 : h0.getLast? with
    | none =>
        have h0nil : h0 = [] := by
          cases h : h0 with
          | nil => rfl
          | cons x xs => rw [h] at hg0; simp at hg0
        rw [h0nil]
        simpa [replayAll] using g1
    | some p =>
        have h0ne : h0 ≠ [] := by intro he; rw [he] at hg0; simp at hg0
        have h0pos : 0 < h0.length := List.length_pos.mpr h0ne
        have hget0 : h0.get? (h0.length - 1) = some p := by
          rw [← List.getLast?_eq_get?]; exact hg0
        have hgetfull : c.localActionHistory.get? (h0.length - 1) = some p := by
          rw [hsplit, List.get?_append (by omega)]; exact hget0
        have := g5 _ p hgetfull
        rw [this]
        congr 1
        rw [hsplit, show h0.length - 1 + 1 = h0.length by omega, List.take_left]
  have hres : undoActionById a.id c = ⟨h0, c.stateCache, replayAll h0⟩ := by
    unfold undoActionById
    rw [hfilter]
    simp only [hlook]
  rw [hres]
  refine ⟨g1, ?_, (List.nodup_append.mp hnd').1, rfl, ?_⟩
  · intro b hb
    exact g2 b (hsplit ▸ List.mem_append.mpr (Or.inl hb))
  · intro i b hb
    have hbound : i < h0.length := by
      obtain ⟨hb', _⟩ := List.get?_eq_some.mp hb
      exact hb'
    have hbfull : c.localActionHistory.get? i = some b := by
      rw [hsplit, List.get?_append hbound]; exact hb
    have := g5 i b hbfull
    rw [this]
    congr 1
    rw [hsplit, List.take_append_of_le_length (by omega)]

/-- A redo notification for a fresh action id preserves the client
invariant. -/
theorem good_redo (c : ClientState) (a : DrawAction)
    (hg : GoodClient c)
    (hfresh : a.id ∉ c.localActionHistory.map DrawAction.id)
    (hinit : a.id ≠ initialKey) :
    GoodClient (redoAction a c) := by
  have hlast := good_lookup_last c hg
  have hres : redoAction a c =
      ⟨c.localActionHistory ++ [a],
       mapSet a.id (replayAll c.localActionHistory ++ renderAction a) c.stateCache,
       replayAll c.localActionHistory ++ renderAction a⟩ := by
    unfold redoAction
    simp only [hlast]
  rw [hres]
  exact good_commit_core c a hg hfresh hinit

/-- A committed brush or eraser action whose events were already rendered
live (by the remote stream or the local echo) preserves the client
invariant. -/
theorem good_brush_commit (selfId : String) (c : ClientState) (a : DrawAction)
    (hg : GoodClient c)
    (hshape : isShapeAction a = false)
    (hfresh : a.id ∉ c.localActionHistory.map DrawAction.id)
    (hinit : a.id ≠ initialKey) :
    GoodClient
      (addCommittedAction selfId a
        ⟨c.localActionHistory, c.stateCache, c.canvas ++ a.events.map RenderOp.brush⟩) := by
  have hres : addCommittedAction selfId a
      ⟨c.localActionHistory, c.stateCache, c.canvas ++ a.events.map RenderOp.brush⟩ =
      ⟨c.localActionHistory ++ [a],
       mapSet a.id (c.canvas ++ a.events.map RenderOp.brush) c.stateCache,
       c.canvas ++ a.events.map RenderOp.brush⟩ := by
    simp [addCommittedAction, hshape]
  rw [hres, hg.2.2.2.1, ← renderAction_not_shape a hshape]
  exact good_commit_core c a hg hfresh hinit

/-- A committed remote shape action (classified remote by the id-segment
comparison) is rendered by the commit handler itself and preserves the
client invariant. -/
theorem good_shape_commit_remote (selfId : String) (c : ClientState) (a : DrawAction)
    (e : DrawEventData) (hg : GoodClient c)
    (hev : a.events = [e]) (ht : e.tool = some Tool.rectangle)
    (hsender : senderIdOf a.id ≠ selfId)
    (hfresh : a.id ∉ c.localActionHistory.map DrawAction.id)
    (hinit : a.id ≠ initialKey) :
    GoodClient (addCommittedAction selfId a c) := by
  have hres : addCommittedAction selfId a c =
      ⟨c.localActionHistory ++ [a],
       mapSet a.id (c.canvas ++ [RenderOp.rect e]) c.stateCache,
       c.canvas ++ [RenderOp.rect e]⟩ := by
    simp [addCommittedAction, isShapeAction, hev, ht, hsender]
  rw [hres, hg.2.2.2.1, ← renderAction_shape a e hev ht]
  exact good_commit_core c a hg hfresh hinit

/-- A committed local shape action (classified own by the id-segment
comparison), whose rectangle was already drawn by the local echo at
mouse-up, preserves the client invariant. -/
theorem good_shape_commit_own (selfId : String) (c : ClientState) (a : DrawAction)
    (e : DrawEventData) (hg : GoodClient c)
    (hev : a.events = [e]) (ht : e.tool = some Tool.rectangle)
    (hsender : senderIdOf a.id = selfId)
    (hfresh : a.id ∉ c.localActionHistory.map DrawAction.id)
    (hinit : a.id ≠ initialKey) :
    GoodClient
      (addCommittedAction selfId a
        ⟨c.localActionHistory, c.stateCache, c.canvas ++ [RenderOp.rect e]⟩) := by
  have hres : addCommittedAction selfId a
      ⟨c.localActionHistory, c.stateCache, c.canvas ++ [RenderOp.rect e]⟩ =
      ⟨c.localActionHistory ++ [a],
       mapSet a.id (c.canvas ++ [RenderOp.rect e]) c.stateCache,
       c.canvas ++ [RenderOp.rect e]⟩ := by
    simp [addCommittedAction, isShapeAction, hev, ht, hsender]
  rw [hres, hg.2.2.2.1, ← renderAction_shape a e hev ht]
  exact good_commit_core c a hg hfresh hinit

/-- Client states reachable through the server-notification protocol
(`registerSocketEvents` in `src/client/websocket.ts` dispatching to the
handlers of `src/unnamed/part_001`): a fresh client; a `global-redraw`
resync; an `action-committed` for a brush/eraser action whose events were
already rendered live (remote stream or local echo), for a remote shape
action (rendered by the handler itself), or for the local user's own shape
action (rendered by the local echo at mouse-up); a `perform-undo` for the
current tail; a `perform-redo`; and a `perform-clear`.  Action ids are
fresh and distinct from the sentinel, as the server's protocol supplies
them (see the identifier analysis for when the server can violate this). -/
inductive ClientReached (selfId : String) : ClientState → Prop where
  | init : ClientReached selfId (buildCacheAndRedraw [])
  | fullResync {c : ClientState} (h : List DrawAction) :
      ClientReached selfId c →
      (h.map DrawAction.id).Nodup →
      (∀ a ∈ h, a.id ≠ initialKey) →
      ClientReached selfId (setHistory h c)
  | brushCommit {c : ClientState} (a : DrawAction) :
      ClientReached selfId c →
      isShapeAction a = false →
      a.id ∉ c.localActionHistory.map DrawAction.id →
      a.id ≠ initialKey →
      ClientReached selfId
        (addCommittedAction selfId a
          ⟨c.localActionHistory, c.stateCache, c.canvas ++ a.events.map RenderOp.brush⟩)
  | remoteShapeCommit {c : ClientState} (a : DrawAction) (e : DrawEventData) :
      ClientReached selfId c →
      a.events = [e] →
      e.tool = some Tool.rectangle →
      senderIdOf a.id ≠ selfId →
      a.id ∉ c.localActionHistory.map DrawAction.id →
      a.id ≠ initialKey →
      ClientReached selfId (addCommittedAction selfId a c)
  | ownShapeCommit {c : ClientState} (a : DrawAction) (e : DrawEventData) :
      ClientReached selfId c →
      a.events = [e] →
      e.tool = some Tool.rectangle →
      senderIdOf a.id = selfId →
      a.id ∉ c.localActionHistory.map DrawAction.id →
      a.id ≠ initialKey →
      ClientReached selfId
        (addCommittedAction selfId a
          ⟨c.localActionHistory, c.stateCache, c.canvas ++ [RenderOp.rect e]⟩)
  | undoTail {c : ClientState} (a : DrawAction) :
      ClientReached selfId c →
      c.localActionHistory.getLast? = some a →
      ClientReached selfId (undoActionById a.id c)
  | redoStep {c : ClientState} (a : DrawAction) :
      ClientReached selfId c →
      a.id ∉ c.localActionHistory.map DrawAction.id →
      a.id ≠ initialKey →
      ClientReached selfId (redoAction a c)
  | clearStep {c : ClientState} :
      ClientReached selfId c →
      ClientReached selfId (clearCanvasClient c)

/-- Every protocol-reachable client state satisfies the snapshot-cache
invariant. -/
theorem reached_good {selfId : String} {c : ClientState}
    (h : ClientReached selfId c) : GoodClient c := by
  induction h with
  | init => exact good_build [] (by simp) (by simp)
  | fullResync h _ hnd hini ih => exact good_build h hnd hini
  | brushCommit a _ hshape hfresh hinit ih =>
      exact good_brush_commit selfId _ a ih hshape hfresh hinit
  | remoteShapeCommit a e _ hev ht hsender hfresh hinit ih =>
      exact good_shape_commit_remote selfId _ a e ih hev ht hsender hfresh hinit
  | ownShapeCommit a e _ hev ht hsender hfresh hinit ih =>
      exact good_shape_commit_own selfId _ a e ih hev ht hsender hfresh hinit
  | undoTail a _ hl ih => exact good_undo _ a ih hl
  | redoStep a _ hfresh hinit ih => exact good_redo _ a ih hfresh hinit
  | clearStep _ ih => exact good_build [] (by simp) (by simp)

/-- C5: for a client whose local history `[A1, ..., An]` was built purely
from server notifications, the snapshot cached under any `Ai`'s identity,
followed by replaying `A(i+1) .. An`, equals the snapshot cached under
`An`'s identity; and the sentinel key `'initial'` always maps to the
blank-canvas snapshot. -/
theorem cache_correctness (selfId : String) (c : ClientState)
    (hc : ClientReached selfId c) :
    lookupKey initialKey c.stateCache = some ([] : Raster) ∧
    ∀ (i : Nat) (a last : DrawAction),
      c.localActionHistory.get? i = some a →
      c.localActionHistory.getLast? = some last →
      ∃ ri : Raster,
        lookupKey a.id c.stateCache = some ri ∧
        lookupKey last.id c.stateCache =
          some (ri ++ replayAll (c.localActionHistory.drop (i + 1))) := by
  obtain ⟨g1, _g2, _g3, _g4, g5⟩ := reached_good hc
  refine ⟨g1, ?_⟩
  intro i a last hga hglast
  have hne : c.localActionHistory ≠ [] := by
    intro he; rw [he] at hglast; simp at hglast
  have hpos : 0 < c.localActionHistory.length := List.length_pos.mpr hne
  have hgetlast : c.localActionHistory.get? (c.localActionHistory.length - 1) = some last := by
    rw [← List.getLast?_eq_get?]; exact hglast
  refine ⟨replayAll (c.localActionHistory.take (i + 1)), g5 i a hga, ?_⟩
  rw [g5 _ last hgetlast]
  congr 1
  rw [show c.localActionHistory.length - 1 + 1 = c.localActionHistory.length by omega,
    List.take_length, ← replayAll_append, List.take_append_drop]

/-- Witness for C5: a client that received one committed brush action
after joining; the theorem's hypotheses are discharged at this concrete
notification trace. -/
theorem cache_correctness_witness :
    lookupKey initialKey
      (addCommittedAction "me" ⟨"me-1", [⟨0, 0, 9, 9, "#000", 2, none⟩]⟩
        ⟨(buildCacheAndRedraw []).localActionHistory,
         (buildCacheAndRedraw []).stateCache,
         (buildCacheAndRedraw []).canvas ++
           [⟨0, 0, 9, 9, "#000", 2, none⟩].map RenderOp.brush⟩).stateCache =
      some ([] : Raster) ∧
    lookupKey "me-1"
      (addCommittedAction "me" ⟨"me-1", [⟨0, 0, 9, 9, "#000", 2, none⟩]⟩
        ⟨(buildCacheAndRedraw []).localActionHistory,
         (buildCacheAndRedraw []).stateCache,
         (buildCacheAndRedraw []).canvas ++
           [⟨0, 0, 9, 9, "#000", 2, none⟩].map RenderOp.brush⟩).stateCache =
      some [RenderOp.brush ⟨0, 0, 9, 9, "#000", 2, none⟩] := by
  have hreach : ClientReached "me"
      (addCommittedAction "me" ⟨"me-1", [⟨0, 0, 9, 9, "#000", 2, none⟩]⟩
        ⟨(buildCacheAndRedraw []).localActionHistory,
         (buildCacheAndRedraw []).stateCache,
         (buildCacheAndRedraw []).canvas ++
           [⟨0, 0, 9, 9, "#000", 2, none⟩].map RenderOp.brush⟩) :=
    ClientReached.brushCommit ⟨"me-1", [⟨0, 0, 9, 9, "#000", 2, none⟩]⟩
      ClientReached.init (by decide) (by decide) (by decide)
  have h := cache_correctness "me" _ hreach
  obtain ⟨ri, hri, hlast⟩ := h.2 0 ⟨"me-1", [⟨0, 0, 9, 9, "#000", 2, none⟩]⟩
    ⟨"me-1", [⟨0, 0, 9, 9, "#000", 2, none⟩]⟩ (by decide) (by decide)
  refine ⟨h.1, ?_⟩
  have hri' : ri = [RenderOp.brush ⟨0, 0, 9, 9, "#000", 2, none⟩] := by
    have : lookupKey "me-1"
        (addCommittedAction "me" ⟨"me-1", [⟨0, 0, 9, 9, "#000", 2, none⟩]⟩
          ⟨(buildCacheAndRedraw []).localActionHistory,
           (buildCacheAndRedraw []).stateCache,
           (buildCacheAndRedraw []).canvas ++
             [⟨0, 0, 9, 9, "#000", 2, none⟩].map RenderOp.brush⟩).stateCache =
        some [RenderOp.brush ⟨0, 0, 9, 9, "#000", 2, none⟩] := by decide
    rw [this] at hri
    exact (Option.some_inj.mp hri).symm
  rw [← hri']
  exact hri

end Canvas
